import Mathlib

/-!
# Verification of the deliverance-star document transformation pipeline

This file embeds the document transformation pipeline of the repository
(the offline `convert-book` script and the inline in-browser pipeline of
`App.tsx`) as executable Lean definitions, and proves or refutes the frozen
claims about it.

Modelling conventions:
* JS strings are Lean `String`s (a list of `Char`s); the ASCII fragments of
  the JS regex character classes `\s`, `\w`, `\d` are modelled by `jsIsSpace`,
  `isWordChar`, `Char.isDigit` (the sources' regexes are not `/u`-flagged, so
  `\w`/`\d` are ASCII-only anyway; `\s`/`toLowerCase` are modelled on their
  ASCII fragment).
* The third-party Markdown renderer (`marked`) is an external collaborator and
  is passed in as an opaque `render : String → String` parameter where its
  output matters; concrete theorems instantiate the materialized DOM tree that
  the renderer would produce for the concrete input, stated explicitly.
* The DOM (`JSDOM` offline / `DOMParser` inline) is modelled by the inductive
  `Node` type below; element mutation becomes pure tree rewriting, and the
  "collect nodes first, then mutate each" pattern of the sources becomes a
  single simultaneous rewrite (the collected node lists in the sources are
  snapshots taken before any mutation, and each mutation only replaces the
  mutated node itself, so the two are equivalent).
-/

namespace DeliveranceStar

/-! ## Character classes and basic string helpers -/

/-- ASCII fragment of the JS regex class `\s` (whitespace). -/
def jsIsSpace (c : Char) : Bool :=
  c = ' ' || c = '\t' || c = '\n' || c = '\r' || c = '\x0b' || c = '\x0c'

/-- The JS regex class `\w`: ASCII letters, digits and underscore. -/
def isWordChar (c : Char) : Bool :=
  c.isAlpha || c.isDigit || c = '_'

/-- JS `String.prototype.trim` on char lists: drop whitespace from both ends. -/
def jsTrimL (l : List Char) : List Char :=
  ((l.dropWhile jsIsSpace).reverse.dropWhile jsIsSpace).reverse

/-- JS `String.prototype.trim`. -/
def jsTrim (s : String) : String := ⟨jsTrimL s.data⟩

/-! ## Decimal rendering of naturals (JS number-to-string in template literals) -/

/-- Little-endian decimal digits of `n`, with explicit structural fuel so that
the definition reduces in the kernel.  `toDigitsRevAux n n` is the digit list
of `n` (the fuel `n` is always sufficient because the argument strictly
decreases under division by 10). -/
def toDigitsRevAux : Nat → Nat → List Nat
  | 0, _ => []
  | fuel + 1, n => if n = 0 then [] else n % 10 :: toDigitsRevAux fuel (n / 10)

/-- Decimal rendering of a natural number, as JS renders numbers in template
literals such as `` `${id}-${idCounts[id]}` `` and `` `p${paragraphIndex}` ``. -/
def natToString (n : Nat) : String :=
  if n = 0 then "0" else ⟨((toDigitsRevAux n n).reverse.map Nat.digitChar)⟩

/-- Value of a little-endian digit list. -/
def ofDigitsRev : List Nat → Nat
  | [] => 0
  | d :: ds => d + 10 * ofDigitsRev ds

theorem ofDigitsRev_toDigitsRevAux : ∀ (fuel n : Nat), n ≤ fuel →
    ofDigitsRev (toDigitsRevAux fuel n) = n := by
  intro fuel
  induction fuel with
  | zero => intro n hn; interval_cases n; rfl
  | succ f ih =>
    intro n hn
    by_cases h0 : n = 0
    · simp [toDigitsRevAux, h0, ofDigitsRev]
    · have hdiv : n / 10 ≤ f := by
        have : n / 10 < n := Nat.div_lt_self (Nat.pos_of_ne_zero h0) (by omega)
        omega
      simp only [toDigitsRevAux, h0, if_false, ofDigitsRev, ih _ hdiv]
      exact Nat.mod_add_div n 10

theorem toDigitsRevAux_lt_ten : ∀ (fuel n : Nat), ∀ d ∈ toDigitsRevAux fuel n, d < 10 := by
  intro fuel
  induction fuel with
  | zero => intro n d hd; simp [toDigitsRevAux] at hd
  | succ f ih =>
    intro n d hd
    by_cases h0 : n = 0
    · simp [toDigitsRevAux, h0] at hd
    · simp only [toDigitsRevAux, h0, if_false, List.mem_cons] at hd
      rcases hd with h | h
      · subst h; exact Nat.mod_lt _ (by omega)
      · exact ih _ _ h

theorem string_data_inj {a b : String} (h : a.data = b.data) : a = b := by
  cases a; cases b; simp_all

/-- Inverse of `Nat.digitChar` on decimal digits, used only to prove that the
decimal rendering is injective. -/
def charToDigit (c : Char) : Nat := c.toNat - 48

/-- Decoder for `natToString`, used only to prove injectivity. -/
def decodeDec (s : String) : Nat := ofDigitsRev ((s.data.map charToDigit).reverse)

theorem decodeDec_natToString (n : Nat) : decodeDec (natToString n) = n := by
  by_cases h0 : n = 0
  · subst h0; rfl
  · simp only [natToString, h0, if_false, decodeDec]
    show ofDigitsRev (((((toDigitsRevAux n n).reverse.map Nat.digitChar)).map charToDigit).reverse) = n
    rw [List.map_map]
    have hcomp : ∀ d ∈ (toDigitsRevAux n n).reverse, (charToDigit ∘ Nat.digitChar) d = id d := by
      intro d hd
      have hlt : d < 10 := toDigitsRevAux_lt_ten n n d (by simpa using hd)
      have key : ∀ x : Fin 10, charToDigit (Nat.digitChar x.val) = x.val := by decide
      simpa using key ⟨d, hlt⟩
    rw [List.map_congr_left hcomp, List.map_id, List.reverse_reverse]
    exact ofDigitsRev_toDigitsRevAux n n (le_refl n)

theorem natToString_inj (m n : Nat) (h : natToString m = natToString n) : m = n := by
  have := congrArg decodeDec h
  rwa [decodeDec_natToString, decodeDec_natToString] at this

/-! ## JS `String.prototype.split` with a string separator -/

/-- Does `l` start with `sep`? -/
def startsWithL : List Char → List Char → Bool
  | [], _ => true
  | _ :: _, [] => false
  | s :: ss, c :: cs => s = c && startsWithL ss cs

/-- JS `text.split(sep)` for a nonempty string separator `sep`: scan left to
right, splitting at each (leftmost, non-overlapping) occurrence of `sep`.
`acc` holds the current segment reversed; the structural fuel is adequate
whenever it is at least the length of the scanned list (each step consumes at
least one character because the placeholders are nonempty). -/
def splitFullAux (sep : List Char) : Nat → List Char → List Char → List (List Char)
  | 0, acc, l => [acc.reverse ++ l]
  | _ + 1, acc, [] => [acc.reverse]
  | fuel + 1, acc, c :: cs =>
    if startsWithL sep (c :: cs) then
      acc.reverse :: splitFullAux sep fuel [] (List.drop sep.length (c :: cs))
    else
      splitFullAux sep fuel (c :: acc) cs

/-- JS `text.split(sep)` on char lists. -/
def splitFull (sep l : List Char) : List (List Char) :=
  splitFullAux sep l.length [] l

/-- Is `sep` a substring of `l` (JS `String.prototype.includes`)? -/
def containsSubL (sep : List Char) : List Char → Bool
  | [] => startsWithL sep []
  | c :: cs => startsWithL sep (c :: cs) || containsSubL sep cs

/-! ## The footnote micro-syntax scanners

The sources use two global regexes:
* `FOOTNOTE_REF_REGEX = /\[\^(\d+)\]/g` — reference markers `[^N]`;
* `FOOTNOTE_CONTENT_REGEX = /\[(\d+)\]:([^\[]*?)\[\/(\d+)\]/g` — definition
  blocks `[N]: body [/M]` whose body contains no `[`.

A global regex scan visits positions left to right, emitting the leftmost
match at each point and resuming after it; on failure it advances one
character.  For these two patterns matching is deterministic: `\d+` is a
maximal digit run that must be followed by the required literal, and the lazy
body `[^\[]*?` necessarily extends to the first `[` after the colon (it cannot
contain `[`), which must then start the closing `[/N]` literal. -/

/-- Maximal digit run at the front of a char list, and the rest. -/
def parseDigits : List Char → List Char × List Char
  | [] => ([], [])
  | c :: cs =>
    if c.isDigit then
      let p := parseDigits cs
      (c :: p.1, p.2)
    else ([], c :: cs)

/-- Maximal run of non-`[` chars at the front (the lazy `[^\[]*?` body), and
the rest. -/
def spanNonBracket : List Char → List Char × List Char
  | [] => ([], [])
  | c :: cs =>
    if c = '[' then ([], c :: cs)
    else
      let p := spanNonBracket cs
      (c :: p.1, p.2)

/-- A footnote definition block match: opening label, body, closing label
(the three capture groups of `FOOTNOTE_CONTENT_REGEX`). -/
structure FDef where
  label : String
  body : String
  closeLabel : String
deriving DecidableEq

/-- Try to match `FOOTNOTE_CONTENT_REGEX` at the start of `l`; on success
return the captures and the suffix after the match. -/
def tryMatchDef (l : List Char) : Option (FDef × List Char) :=
  match l with
  | [] => none
  | c :: r1 =>
    if c = '[' then
      let pd := parseDigits r1
      if pd.1 = [] then none else
      match pd.2 with
      | c2 :: c3 :: r3 =>
        if c2 = ']' && c3 = ':' then
          let pb := spanNonBracket r3
          match pb.2 with
          | c4 :: c5 :: r5 =>
            if c4 = '[' && c5 = '/' then
              let pe := parseDigits r5
              if pe.1 = [] then none else
              match pe.2 with
              | c6 :: rest =>
                if c6 = ']' then some (⟨⟨pd.1⟩, ⟨pb.1⟩, ⟨pe.1⟩⟩, rest) else none
              | [] => none
            else none
          | _ => none
        else none
      | _ => none
    else none

/-- The global scan of `FOOTNOTE_CONTENT_REGEX` (the `while exec` loop of the
sources): all definition blocks, in source order. -/
def scanDefsAux : Nat → List Char → List FDef
  | 0, _ => []
  | _ + 1, [] => []
  | fuel + 1, c :: cs =>
    match tryMatchDef (c :: cs) with
    | some (d, rest) => d :: scanDefsAux fuel rest
    | none => scanDefsAux fuel cs

def scanDefs (s : String) : List FDef := scanDefsAux s.data.length s.data

/-- `content.replace(FOOTNOTE_CONTENT_REGEX, '')`: remove every definition
block. -/
def removeDefsAux : Nat → List Char → List Char
  | 0, l => l
  | _ + 1, [] => []
  | fuel + 1, c :: cs =>
    match tryMatchDef (c :: cs) with
    | some (_, rest) => removeDefsAux fuel rest
    | none => c :: removeDefsAux fuel cs

def removeDefs (s : String) : String := ⟨removeDefsAux s.data.length s.data⟩

/-- Try to match `FOOTNOTE_REF_REGEX` (`[^N]`) at the start of `l`; on success
return the label and the suffix after the match. -/
def tryMatchRef (l : List Char) : Option (String × List Char) :=
  match l with
  | c1 :: c2 :: r =>
    if c1 = '[' && c2 = '^' then
      let pd := parseDigits r
      if pd.1 = [] then none else
      match pd.2 with
      | c3 :: rest => if c3 = ']' then some (⟨pd.1⟩, rest) else none
      | [] => none
    else none
  | _ => none

/-- `content.replace(FOOTNOTE_REF_REGEX, callback)`: replace every reference
marker `[^N]` with the bare placeholder `fnN`, collecting the labels in
source order (the callback pushes one entry per match onto `footnoteRefs`). -/
def replaceRefsAux : Nat → List Char → List Char × List String
  | 0, l => (l, [])
  | _ + 1, [] => ([], [])
  | fuel + 1, c :: cs =>
    match tryMatchRef (c :: cs) with
    | some (n, rest) =>
      let p := replaceRefsAux fuel rest
      (("fn" ++ n).data ++ p.1, n :: p.2)
    | none =>
      let p := replaceRefsAux fuel cs
      (c :: p.1, p.2)

def replaceRefs (s : String) : String × List String :=
  let p := replaceRefsAux s.data.length s.data
  (⟨p.1⟩, p.2)

/-! ## The footnote table (a JS `Map` keyed by footnote id) -/

/-- `Footnote` from `types.ts`: `{ id, content }` where `content` is the
rendered HTML of the definition body. -/
structure Footnote where
  id : String
  content : String
deriving DecidableEq

/-- JS `Map.prototype.set`: update in place if the key exists, else append
(insertion order is preserved). -/
def mapSet (m : List (String × Footnote)) (k : String) (v : Footnote) :
    List (String × Footnote) :=
  match m with
  | [] => [(k, v)]
  | (k', v') :: rest => if k' = k then (k, v) :: rest else (k', v') :: mapSet rest k v

/-- JS `Map.prototype.get` (as an `Option`). -/
def lookupMap (m : List (String × Footnote)) (k : String) : Option Footnote :=
  match m with
  | [] => none
  | (k', v) :: rest => if k' = k then some v else lookupMap rest k

/-- The `while ((defMatch = FOOTNOTE_CONTENT_REGEX.exec(bookContent)))` loop:
for each definition block, in source order, `footnoteMap.set(fnN, { id: fnN,
content: marked.parse(body.trim()) })`.  `render` is the external `marked`
renderer. -/
def buildFootnoteMap (render : String → String) (defs : List FDef) :
    List (String × Footnote) :=
  defs.foldl
    (fun m d => mapSet m ("fn" ++ d.label) ⟨"fn" ++ d.label, render (jsTrim d.body)⟩) []

/-- A footnote reference record `{ placeholder, id, number }` pushed by the
`replace` callback. -/
structure FRef where
  placeholder : String
  id : String
  number : String
deriving DecidableEq

/-- The reference record pushed for label `n`: the placeholder and the id are
both `"fn" + n`. -/
def mkRef (n : String) : FRef := ⟨"fn" ++ n, "fn" ++ n, n⟩

/-- Output of the Footnote Extractor (first stage of both pipelines). -/
structure ExtractOut where
  footnotes : List (String × Footnote)
  refs : List FRef
  processed : String

/-- The Footnote Extractor, exactly as both drivers run it on the raw source:
1. scan for definition blocks on the raw source and build the table;
2. replace reference markers with bare `fnN` placeholders, collecting refs;
3. remove all definition blocks from the substituted source. -/
def extract (render : String → String) (src : String) : ExtractOut :=
  let footnotes := buildFootnoteMap render (scanDefs src)
  let p := replaceRefs src
  ⟨footnotes, p.2.map mkRef, removeDefs p.1⟩

/-! ## The materialized DOM tree -/

/-- A DOM node: a text node, or an element with tag, `id`, `className`, other
attributes (in `setAttribute` order) and children.  The root passed through
the pipeline is the `body` element. -/
inductive Node where
  | text : String → Node
  | elem : String → String → String → List (String × String) → List Node → Node

mutual

/-- DOM `textContent` of a node: concatenation of all descendant text. -/
def textContent : Node → String
  | .text s => s
  | .elem _ _ _ _ cs => textContentL cs

def textContentL : List Node → String
  | [] => ""
  | c :: cs => textContent c ++ textContentL cs

end

mutual

/-- Number of elements with the given `className` in a tree (observer used to
distinguish structurally different outputs). -/
def countClassN (cls : String) : Node → Nat
  | .text _ => 0
  | .elem _ _ c _ cs => (if c = cls then 1 else 0) + countClassL cls cs

def countClassL (cls : String) : List Node → Nat
  | [] => 0
  | c :: cs => countClassN cls c + countClassL cls cs

end

/-! ## The Heading Indexer -/

/-- `text.replace(/[^\w\s-]/g, '')`: keep word chars, whitespace and hyphen. -/
def stripNonWord (l : List Char) : List Char :=
  l.filter (fun c => isWordChar c || jsIsSpace c || c = '-')

/-- `text.replace(/\s+/g, '-')`: replace each maximal whitespace run by a
single hyphen (the hyphen is emitted at the end of the run). -/
def spacesToHyphens : List Char → List Char
  | [] => []
  | [c] => if jsIsSpace c then ['-'] else [c]
  | c :: c' :: cs =>
    if jsIsSpace c then
      if jsIsSpace c' then spacesToHyphens (c' :: cs)
      else '-' :: spacesToHyphens (c' :: cs)
    else c :: spacesToHyphens (c' :: cs)

/-- The third `replace` of the slug chain (regex `-+`, replacement `'-'`):
collapse each maximal hyphen run to one. -/
def collapseHyphens : List Char → List Char
  | [] => []
  | [c] => [c]
  | c :: c' :: cs =>
    if c = '-' && c' = '-' then collapseHyphens (c' :: cs)
    else c :: collapseHyphens (c' :: cs)

/-- The heading slug derivation of both pipelines: lower-case, strip
characters outside `\w`, `\s` and hyphen, replace whitespace runs by `'-'`,
collapse hyphen runs, then `trim()`. -/
def slugify (s : String) : String :=
  ⟨jsTrimL (collapseHyphens (spacesToHyphens (stripNonWord (s.data.map Char.toLower))))⟩

/-- The candidate id for a heading: the renderer-assigned id if present
(`heading.id`, empty string when absent — `if (!id)`), else the derived
slug of the heading's trimmed text. -/
def headingCandidate (preId text : String) : String :=
  if preId = "" then slugify text else preId

/-- One step of the `idCounts` collision handling: if the candidate was seen
(`idCounts[id]` truthy), post-increment its count and suffix `-count`;
otherwise record count 1 and use the candidate as is.  Returns the final id
and the updated counter table. -/
def idCountsStep (counts : String → Nat) (cand : String) : String × (String → Nat) :=
  if counts cand ≠ 0 then
    let n := counts cand + 1
    (cand ++ "-" ++ natToString n, fun x => if x = cand then n else counts x)
  else
    (cand, fun x => if x = cand then 1 else counts x)

/-- `ContentTreeNode` from `types.ts`: `{ level, text, id }`. -/
structure CTNode where
  level : Nat
  text : String
  id : String
deriving DecidableEq

/-- The data the indexer reads from one heading element: level, pre-assigned
id, and trimmed text content. -/
structure HeadingInfo where
  level : Nat
  preId : String
  text : String
deriving DecidableEq

/-- Level of a heading tag (`h1` up to `h6`), `none` for other tags — the
`querySelectorAll('h1, h2, h3, h4, h5, h6')` filter plus
`parseInt(tagName.charAt(1))`. -/
def headingLevel? (tag : String) : Option Nat :=
  if tag = "h1" then some 1
  else if tag = "h2" then some 2
  else if tag = "h3" then some 3
  else if tag = "h4" then some 4
  else if tag = "h5" then some 5
  else if tag = "h6" then some 6
  else none

/-- The `headings.forEach` loop on the flat heading list: emit one `CTNode`
per heading and thread the `idCounts` table. -/
def indexListAux (counts : String → Nat) : List HeadingInfo → List CTNode × (String → Nat)
  | [] => ([], counts)
  | h :: rest =>
    let cand := headingCandidate h.preId h.text
    let step := idCountsStep counts cand
    let tl := indexListAux step.2 rest
    (⟨h.level, h.text, step.1⟩ :: tl.1, tl.2)

mutual

/-- The Heading Indexer over the materialized tree: visit heading elements in
document (pre-)order, set each heading's final id on the element, and collect
the navigation tree, threading the run-local `idCounts` table. -/
def indexTreeN (counts : String → Nat) : Node → Node × List CTNode × (String → Nat)
  | .text s => (.text s, [], counts)
  | .elem tag eid cls attrs cs =>
    match headingLevel? tag with
    | some lvl =>
      let txt := jsTrim (textContentL cs)
      let cand := headingCandidate eid txt
      let step := idCountsStep counts cand
      let r := indexTreeL step.2 cs
      (.elem tag step.1 cls attrs r.1, ⟨lvl, txt, step.1⟩ :: r.2.1, r.2.2)
    | none =>
      let r := indexTreeL counts cs
      (.elem tag eid cls attrs r.1, r.2.1, r.2.2)

def indexTreeL (counts : String → Nat) : List Node → List Node × List CTNode × (String → Nat)
  | [] => ([], [], counts)
  | c :: cs =>
    let hd := indexTreeN counts c
    let tl := indexTreeL hd.2.2 cs
    (hd.1 :: tl.1, hd.2.1 ++ tl.2.1, tl.2.2)

end

/-- One run of the Heading Indexer on a document body: the `idCounts` table is
created fresh (`const idCounts = {}`) at the start of the run. -/
def indexTree (body : Node) : Node × List CTNode :=
  let r := indexTreeN (fun _ => 0) body
  (r.1, r.2.1)

mutual

/-- The headings of a tree in document order, with the data the indexer reads
from each. -/
def collectHeadingsN : Node → List HeadingInfo
  | .text _ => []
  | .elem tag eid _ _ cs =>
    match headingLevel? tag with
    | some lvl => ⟨lvl, eid, jsTrim (textContentL cs)⟩ :: collectHeadingsL cs
    | none => collectHeadingsL cs

def collectHeadingsL : List Node → List HeadingInfo
  | [] => []
  | c :: cs => collectHeadingsN c ++ collectHeadingsL cs

end

/-! ## The Footnote Linker -/

/-- The interactive footnote reference element built for a reference
(`doc.createElement('span')` plus the `className`/`setAttribute`/`textContent`
assignments, identical in both pipelines). -/
def mkFootnoteSpan (fid number : String) : Node :=
  .elem "span" "" "footnote-ref"
    [("data-footnote-id", fid), ("role", "button"), ("tabindex", "0"),
     ("aria-label", "Footnote " ++ number)]
    [.text number]

/-- Rewrite of one text node for one reference: split the text on the
placeholder; only a two-part split (`parts.length === 2`, i.e. exactly one
occurrence) is handled — the node is replaced by the before-text, the span,
and (only if nonempty) the after-text.  Any other split count leaves the node
untouched (nodes without an occurrence are not even collected by the walker;
their split is a one-part list). -/
def processText (r : FRef) (s : String) : List Node :=
  match splitFull r.placeholder.data s.data with
  | [p0, p1] =>
    .text ⟨p0⟩ :: mkFootnoteSpan r.id r.number ::
      (if p1.isEmpty then [] else [.text ⟨p1⟩])
  | _ => [.text s]

mutual

/-- Replacement sequence for one node under one reference: a text node becomes
its `processText` rewrite (one to three nodes), an element keeps its place and
has its children rewritten. -/
def linkRefOne (r : FRef) : Node → List Node
  | .text s => processText r s
  | .elem tag eid cls attrs cs => [.elem tag eid cls attrs (linkRefL r cs)]

def linkRefL (r : FRef) : List Node → List Node
  | [] => []
  | c :: cs => linkRefOne r c ++ linkRefL r cs

end

/-- Linking of one reference over the whole tree: the `TreeWalker` collects
every text node under `body` (before any mutation) and each collected node is
rewritten by `processText` in place.  Newly created nodes are not in the
collected snapshot, so the rewrite is simultaneous.  The root is the `body`
element (its children are rewritten). -/
def linkRefN (r : FRef) : Node → Node
  | .text s => .text s
  | .elem tag eid cls attrs cs => .elem tag eid cls attrs (linkRefL r cs)

/-- The outer `forEach` over the reference list (one full tree walk per
reference). -/
def linkAll (refs : List FRef) (body : Node) : Node :=
  refs.foldl (fun t r => linkRefN r t) body

/-- The offline linker: `footnoteRefs.reverse().forEach(...)`. -/
def offlineLinkStage (refs : List FRef) (body : Node) : Node :=
  linkAll refs.reverse body

/-- The inline linker: `footnoteRefs.forEach(...)` — no reversal. -/
def inlineLinkStage (refs : List FRef) (body : Node) : Node :=
  linkAll refs body

/-! ## The Paragraph Anchor Injector (offline pipeline only) -/

/-- The deep-link anchor element prepended to an anchored paragraph
(`doc.createElement('a')` with `href`, class, aria-label, link glyph and
title). -/
def mkParagraphAnchor (pid : String) : Node :=
  .elem "a" "" "paragraph-anchor"
    [("href", "#" ++ pid), ("aria-label", "Share this paragraph"),
     ("title", "Copy link to this paragraph")]
    [.text "🔗"]

/-- The skip test of the `paragraphs.forEach` loop: `!paragraph.textContent ||
paragraph.textContent.trim().length === 0`. -/
def pIsEmpty (cs : List Node) : Bool :=
  (jsTrimL (textContentL cs).data).isEmpty

mutual

/-- The Paragraph Anchor Injector: visit `p` elements in document order with
the running 1-based counter; skip empty ones; assign id `p<n>`, set the marker
class, and prepend the deep-link anchor. -/
def injectN (counter : Nat) : Node → Node × Nat
  | .text s => (.text s, counter)
  | .elem tag eid cls attrs cs =>
    if tag = "p" && !(pIsEmpty cs) then
      let n := counter + 1
      let pid := "p" ++ natToString n
      let r := injectL n cs
      (.elem "p" pid "paragraph-with-anchor" attrs (mkParagraphAnchor pid :: r.1), r.2)
    else
      let r := injectL counter cs
      (.elem tag eid cls attrs r.1, r.2)

def injectL (counter : Nat) : List Node → List Node × Nat
  | [] => ([], counter)
  | c :: cs =>
    let hd := injectN counter c
    let tl := injectL hd.2 cs
    (hd.1 :: tl.1, tl.2)

end

/-- One run of the Paragraph Anchor Injector (`let paragraphIndex = 0`). -/
def injectParagraphs (body : Node) : Node := (injectN 0 body).1

/-! ## The two pipeline drivers (stages after the Markup Renderer and the
Tree Materializer, which are external collaborators) -/

/-- The offline pipeline on the materialized tree: heading indexing, footnote
linking in reverse discovery order, then paragraph anchor injection.  Returns
the annotated body and the navigation tree. -/
def offlinePipeline (refs : List FRef) (body : Node) : Node × List CTNode :=
  let ix := indexTree body
  (injectParagraphs (offlineLinkStage refs ix.1), ix.2)

/-- The inline pipeline on the materialized tree: heading indexing and
footnote linking in discovery order; it has no paragraph anchor stage. -/
def inlinePipeline (refs : List FRef) (body : Node) : Node × List CTNode :=
  let ix := indexTree body
  (inlineLinkStage refs ix.1, ix.2)

/-! ## The footnote activation handler (presentation layer, `App.tsx`) -/

/-- The event target data the click handler reads: the class list and the
`data-footnote-id` attribute (`none` models `getAttribute` returning null). -/
structure ClickTarget where
  classes : List String
  footnoteId : Option String

/-- `handleFootnoteClick`: if the target carries the `footnote-ref` class and
its footnote id is truthy and present in the footnote table, the footnote
becomes active; otherwise the active-footnote state is left unchanged.  (The
popover position is pure screen geometry and is elided; the state is the
active footnote id.) -/
def handleFootnoteClick (footnotes : List (String × Footnote)) (target : ClickTarget)
    (active : Option String) : Option String :=
  if target.classes.contains "footnote-ref" then
    match target.footnoteId with
    | some fid =>
      if fid ≠ "" && (lookupMap footnotes fid).isSome then some fid else active
    | none => active
  else active

/-! ## Claim C5 — slug derivation -/

/-- Trimming hyphens from both edges — the final step of the slug chain as the
claim (and the spec) words it; the code's final step is `trim()`, which trims
whitespace.  This definition exists only to compare the claimed behaviour with
the code's. -/
def trimEdgeHyphens (l : List Char) : List Char :=
  ((l.dropWhile (fun c => c = '-')).reverse.dropWhile (fun c => c = '-')).reverse

/-- The slug derivation exactly as claim C5 describes it: lower-case, strip,
whitespace runs to hyphens, collapse hyphens, then trim *hyphens* from both
edges. -/
def slugClaimed (s : String) : String :=
  ⟨trimEdgeHyphens (collapseHyphens (spacesToHyphens (stripNonWord (s.data.map Char.toLower))))⟩

theorem dropWhile_eq_self_of_head {p : Char → Bool} {l : List Char}
    (h : ∀ c ∈ l, p c = false) : l.dropWhile p = l := by
  cases l with
  | nil => rfl
  | cons c cs => simp [List.dropWhile_cons, h c (by simp)]

theorem spacesToHyphens_no_space : ∀ (l : List Char), ∀ c ∈ spacesToHyphens l, jsIsSpace c = false := by
  intro l
  induction l with
  | nil => intro c hc; simp [spacesToHyphens] at hc
  | cons a tail ih =>
    intro c hc
    cases tail with
    | nil =>
      by_cases ha : jsIsSpace a
      · simp [spacesToHyphens, ha] at hc
        subst hc; decide
      · simp [spacesToHyphens, ha] at hc
        subst hc; simpa using ha
    | cons b rest =>
      by_cases ha : jsIsSpace a
      · by_cases hb : jsIsSpace b
        · simp only [spacesToHyphens, ha, hb, if_true] at hc
          exact ih c hc
        · simp [spacesToHyphens, ha, hb] at hc
          rcases hc with h | h
          · subst h; decide
          · exact ih c h
      · simp [spacesToHyphens, ha] at hc
        rcases hc with h | h
        · subst h; simpa using ha
        · exact ih c h

theorem collapseHyphens_subset : ∀ (l : List Char), ∀ c ∈ collapseHyphens l, c ∈ l := by
  intro l
  induction l with
  | nil => intro c hc; simp [collapseHyphens] at hc
  | cons a tail ih =>
    intro c hc
    cases tail with
    | nil => simpa [collapseHyphens] using hc
    | cons b rest =>
      by_cases hab : (a = '-' && b = '-') = true
      · simp only [collapseHyphens, hab, if_true] at hc
        exact List.mem_cons_of_mem _ (ih c hc)
      · rw [collapseHyphens, if_neg hab] at hc
        rcases List.mem_cons.mp hc with h | h
        · simp [h]
        · exact List.mem_cons_of_mem _ (ih c h)

theorem jsTrimL_eq_self {l : List Char} (h : ∀ c ∈ l, jsIsSpace c = false) : jsTrimL l = l := by
  unfold jsTrimL
  rw [dropWhile_eq_self_of_head h,
    dropWhile_eq_self_of_head (fun c hc => h c (List.mem_reverse.mp hc)),
    List.reverse_reverse]

/-- Claim C5 (amended): the derived candidate id is the heading text
lower-cased, stripped of characters outside word chars / whitespace / hyphen,
with whitespace runs collapsed to single hyphens and hyphen runs collapsed —
and the final `trim()` is a whitespace trim that is a no-op at that point, so
hyphens at the edges of the result are *kept*, not trimmed. -/
theorem slugify_final_trim_noop (s : String) :
    slugify s = ⟨collapseHyphens (spacesToHyphens (stripNonWord (s.data.map Char.toLower)))⟩ := by
  unfold slugify
  congr 1
  apply jsTrimL_eq_self
  intro c hc
  exact spacesToHyphens_no_space _ c (collapseHyphens_subset _ c hc)

/-- Claim C5 (counterexample): for the heading text `"- Intro"` (no
renderer-assigned id) the code derives `"-intro"`, while the claimed
edge-hyphen trimming would give `"intro"`. -/
theorem slug_trim_counterexample :
    headingCandidate "" "- Intro" = "-intro"
    ∧ slugClaimed "- Intro" = "intro"
    ∧ headingCandidate "" "- Intro" ≠ slugClaimed "- Intro" := by
  refine ⟨by decide, by decide, by decide⟩

/-! ## Claim C4 — text nodes with several placeholder occurrences -/

/-- Claim C4 (amended): a text node whose text splits into more than two parts
on the placeholder (i.e. contains more than one occurrence) is left entirely
unmodified by the Footnote Linker — no occurrence, not even the first, is
linked, and the node is not rejected (the rewrite is total and returns the
node unchanged). -/
theorem multi_occurrence_node_untouched (r : FRef) (s : String)
    (h : 2 < (splitFull r.placeholder.data s.data).length) :
    processText r s = [Node.text s] := by
  unfold processText
  rcases hp : splitFull r.placeholder.data s.data with _ | ⟨a, _ | ⟨b, _ | ⟨c, rest⟩⟩⟩
  · rfl
  · rfl
  · rw [hp] at h; simp at h
  · rfl

/-- Witness for C4 (amended) at the text `"afn1bfn1c"` with two occurrences of
the `fn1` placeholder. -/
theorem multi_occurrence_node_untouched_witness :
    2 < (splitFull (mkRef "1").placeholder.data ("afn1bfn1c" : String).data).length
    ∧ processText (mkRef "1") "afn1bfn1c" = [Node.text "afn1bfn1c"] :=
  ⟨by decide, multi_occurrence_node_untouched (mkRef "1") "afn1bfn1c" (by decide)⟩

/-- A body whose only paragraph's text contains the `fn1` placeholder twice. -/
def c4Tree : Node :=
  .elem "body" "" "" [] [.elem "p" "" "" [] [.text "afn1 and fn1b"]]

/-- Claim C4 (counterexample): on a text node containing the placeholder
twice, the linker does *not* link the first occurrence — the whole tree is
returned unchanged and no `footnote-ref` element is produced, contradicting
the claim that the first occurrence is replaced by a reference element. -/
theorem multi_occurrence_counterexample :
    linkRefN (mkRef "1") c4Tree = c4Tree
    ∧ countClassN "footnote-ref" (linkRefN (mkRef "1") c4Tree) = 0 := by
  refine ⟨?_, ?_⟩ <;> rfl

/-! ## Claims C3 and C1 — concrete fixtures

`goodSource` is the spec's own placeholder-safety example (reference 1
discovered before reference 10, definitions for both); `badSource` swaps the
discovery order.  `goodBody`/`badBody` are the materialized trees the Markup
Renderer produces for the corresponding stripped sources (one paragraph whose
text is the placeholder-substituted sentence). -/

def goodSource : String :=
  "See note[^1] and also[^10].\n\n[1]: first [/1]\n\n[10]: tenth [/10]"

def goodRefs : List FRef := (extract (fun s => s) goodSource).refs

def goodBody : Node :=
  .elem "body" "" "" [] [.elem "p" "" "" [] [.text "See notefn1 and alsofn10."]]

def badSource : String :=
  "See note[^10] and also[^1].\n\n[1]: first [/1]\n\n[10]: tenth [/10]"

def badRefs : List FRef := (extract (fun s => s) badSource).refs

def badBody : Node :=
  .elem "body" "" "" [] [.elem "p" "" "" [] [.text "See notefn10 and alsofn1."]]

/-- Claim C3 (amended): on the spec's example paragraph
`See note[^1] and also[^10].` (reference 1 discovered before reference 10,
definitions for both), the *offline* linker — which processes the references
in reverse discovery order — produces two distinct reference elements with
visible ordinals "1" and "10"; the *inline* linker, which does not reverse,
skips `fn1` (its split has three parts because `fn1` is a prefix of `fn10`)
and links only `fn10`, leaving the literal text `fn1` in the paragraph. -/
theorem placeholder_safety_amended :
    (extract (fun s => s) goodSource).processed = "See notefn1 and alsofn10.\n\n\n\n"
    ∧ goodRefs = [mkRef "1", mkRef "10"]
    ∧ (lookupMap (extract (fun s => s) goodSource).footnotes "fn1").isSome = true
    ∧ (lookupMap (extract (fun s => s) goodSource).footnotes "fn10").isSome = true
    ∧ offlineLinkStage goodRefs goodBody
        = .elem "body" "" "" [] [.elem "p" "" "" [] [
            .text "See note", mkFootnoteSpan "fn1" "1", .text " and also",
            mkFootnoteSpan "fn10" "10", .text "."]]
    ∧ inlineLinkStage goodRefs goodBody
        = .elem "body" "" "" [] [.elem "p" "" "" [] [
            .text "See notefn1 and also", mkFootnoteSpan "fn10" "10", .text "."]] := by
  refine ⟨?_, ?_, ?_, ?_, ?_, ?_⟩ <;> rfl

/-- Claim C3 (counterexample): for the paragraph `See note[^10] and also[^1].`
(still one paragraph containing references 1 and 10, definitions for both),
even the offline linker produces only *one* reference element: reversal makes
it process `fn1` first, whose split has three parts (the occurrence inside
`fn10` plus the real one), so the node is skipped; the later `fn10` pass
consumes the `fn10` occurrence and the `fn1` placeholder survives as plain
text.  The claim's universal statement is therefore false on the code. -/
theorem placeholder_safety_counterexample :
    (extract (fun s => s) badSource).processed = "See notefn10 and alsofn1.\n\n\n\n"
    ∧ (lookupMap (extract (fun s => s) badSource).footnotes "fn1").isSome = true
    ∧ (lookupMap (extract (fun s => s) badSource).footnotes "fn10").isSome = true
    ∧ countClassN "footnote-ref" (offlineLinkStage badRefs badBody) = 1
    ∧ containsSubL "fn1".data (textContent (offlineLinkStage badRefs badBody)).data = true := by
  refine ⟨?_, ?_, ?_, ?_, ?_⟩ <;> rfl

/-! ## Claim C1 — dual-mode equivalence -/

/-- Claim C1 (code divergence): for the source `goodSource`, the two pipeline
modes agree on the content tree (and they share the extraction stage verbatim,
so the footnote tables are identical), but the annotated HTML trees differ
structurally: the offline tree contains a paragraph anchor (the inline
pipeline has no paragraph-anchor stage at all) and two footnote reference
elements, while the inline tree contains no anchor and only one reference
element (no reversal before linking). -/
theorem dual_mode_divergence :
    (offlinePipeline goodRefs goodBody).2 = (inlinePipeline goodRefs goodBody).2
    ∧ countClassN "paragraph-anchor" (offlinePipeline goodRefs goodBody).1 = 1
    ∧ countClassN "paragraph-anchor" (inlinePipeline goodRefs goodBody).1 = 0
    ∧ countClassN "footnote-ref" (offlinePipeline goodRefs goodBody).1 = 2
    ∧ countClassN "footnote-ref" (inlinePipeline goodRefs goodBody).1 = 1
    ∧ (offlinePipeline goodRefs goodBody).1 ≠ (inlinePipeline goodRefs goodBody).1 := by
  refine ⟨?_, ?_, ?_, ?_, ?_, fun h => ?_⟩
  · rfl
  · rfl
  · rfl
  · rfl
  · rfl
  · have h2 := congrArg (countClassN "paragraph-anchor") h
    rw [show countClassN "paragraph-anchor" (offlinePipeline goodRefs goodBody).1 = 1 from rfl,
      show countClassN "paragraph-anchor" (inlinePipeline goodRefs goodBody).1 = 0 from rfl] at h2
    exact absurd h2 (by omega)

/-! ## Claim C6 — paragraph sequencing -/

mutual

/-- Pre-order record of every element carrying the marker class
`paragraph-with-anchor`: its tag, its id, and its first child. -/
def anchoredInfoN : Node → List (String × String × Option Node)
  | .text _ => []
  | .elem tag eid cls _ cs =>
    if cls = "paragraph-with-anchor" then (tag, eid, cs.head?) :: anchoredInfoL cs
    else anchoredInfoL cs

def anchoredInfoL : List Node → List (String × String × Option Node)
  | [] => []
  | c :: cs => anchoredInfoN c ++ anchoredInfoL cs

end

mutual

/-- No element of the tree already carries the marker class (true of any tree
produced by the Markup Renderer, which emits no class attributes). -/
def cleanN : Node → Bool
  | .text _ => true
  | .elem _ _ cls _ cs => !(cls = "paragraph-with-anchor") && cleanL cs

def cleanL : List Node → Bool
  | [] => true
  | c :: cs => cleanN c && cleanL cs

end

mutual

/-- Number of non-empty paragraph elements of a tree (the paragraphs the
injector numbers). -/
def countPN : Node → Nat
  | .text _ => 0
  | .elem tag _ _ _ cs => (if tag = "p" && !(pIsEmpty cs) then 1 else 0) + countPL cs

def countPL : List Node → Nat
  | [] => 0
  | c :: cs => countPN c + countPL cs

end

/-- The record `anchoredInfoN` produces for the `i`-th anchored paragraph. -/
def pAnchorEntry (i : Nat) : String × String × Option Node :=
  ("p", "p" ++ natToString i, some (mkParagraphAnchor ("p" ++ natToString i)))

theorem anchoredInfo_mkParagraphAnchor (pid : String) :
    anchoredInfoN (mkParagraphAnchor pid) = [] := rfl

theorem map_pAnchorEntry_glue (s a b : Nat) :
    (List.range' s a).map pAnchorEntry ++ (List.range' (s + a) b).map pAnchorEntry
      = (List.range' s (a + b)).map pAnchorEntry := by
  rw [← List.map_append, List.range'_append_1, Nat.add_comm b a]

mutual

theorem injectN_spec : ∀ (c : Nat) (n : Node), cleanN n = true →
    anchoredInfoN (injectN c n).1 = (List.range' (c + 1) (countPN n)).map pAnchorEntry
    ∧ (injectN c n).2 = c + countPN n
  | c, .text s, _ => by simp [injectN, anchoredInfoN, countPN]
  | c, .elem tag eid cls attrs cs, h => by
    have hcls : ¬ (cls = "paragraph-with-anchor") := by
      simp only [cleanN, Bool.and_eq_true, Bool.not_eq_eq_eq_not, Bool.not_true,
        decide_eq_false_iff_not] at h
      exact h.1
    have hcl : cleanL cs = true := by
      simp only [cleanN, Bool.and_eq_true] at h
      exact h.2
    by_cases hp : (tag = "p" && !(pIsEmpty cs)) = true
    · have ihl := injectL_spec (c + 1) cs hcl
      constructor
      · rw [injectN, if_pos hp]
        rw [anchoredInfoN, if_pos rfl]
        show ("p", "p" ++ natToString (c + 1),
              some (mkParagraphAnchor ("p" ++ natToString (c + 1)))) ::
            anchoredInfoL (mkParagraphAnchor ("p" ++ natToString (c + 1)) :: (injectL (c + 1) cs).1)
          = _
        rw [anchoredInfoL, anchoredInfo_mkParagraphAnchor, List.nil_append, ihl.1]
        rw [countPN, if_pos hp]
        rw [show 1 + countPL cs = countPL cs + 1 from by omega, List.range'_succ]
        rfl
      · rw [injectN, if_pos hp]
        show (injectL (c + 1) cs).2 = _
        rw [ihl.2, countPN, if_pos hp]
        omega
    · have ihl := injectL_spec c cs hcl
      constructor
      · rw [injectN, if_neg hp]
        show anchoredInfoN (.elem tag eid cls attrs (injectL c cs).1) = _
        rw [anchoredInfoN, if_neg hcls, ihl.1, countPN, if_neg hp, Nat.zero_add]
      · rw [injectN, if_neg hp]
        show (injectL c cs).2 = _
        rw [ihl.2, countPN, if_neg hp, Nat.zero_add]

theorem injectL_spec : ∀ (c : Nat) (l : List Node), cleanL l = true →
    anchoredInfoL (injectL c l).1 = (List.range' (c + 1) (countPL l)).map pAnchorEntry
    ∧ (injectL c l).2 = c + countPL l
  | c, [], _ => by simp [injectL, anchoredInfoL, countPL]
  | c, n :: l, h => by
    have h1 : cleanN n = true := by
      simp only [cleanL, Bool.and_eq_true] at h
      exact h.1
    have h2 : cleanL l = true := by
      simp only [cleanL, Bool.and_eq_true] at h
      exact h.2
    have ihn := injectN_spec c n h1
    have ihl := injectL_spec (c + countPN n) l h2
    constructor
    · rw [injectL]
      show anchoredInfoL ((injectN c n).1 :: (injectL (injectN c n).2 l).1) = _
      rw [anchoredInfoL, ihn.2, ihn.1, ihl.1, countPL]
      rw [show c + countPN n + 1 = c + 1 + countPN n from by omega]
      exact map_pAnchorEntry_glue (c + 1) (countPN n) (countPL l)
    · rw [injectL]
      show (injectL (injectN c n).2 l).2 = _
      rw [ihn.2, ihl.2, countPL]
      omega

end

/-- Claim C6: the Paragraph Anchor Injector, run on any body none of whose
elements already carries the marker class, produces exactly one anchored
paragraph record per non-empty paragraph, in document order, with ids
`p1, p2, ...` (whitespace-only paragraphs are skipped and consume no sequence
number), and each anchored paragraph has tag `p` and the deep-link anchor
referencing its own id as its first child. -/
theorem paragraph_sequencing (body : Node) (h : cleanN body = true) :
    anchoredInfoN (injectParagraphs body)
      = (List.range' 1 (countPN body)).map pAnchorEntry :=
  (injectN_spec 0 body h).1

/-- Three paragraphs, the second whitespace-only — the claim's concrete
scenario. -/
def c6Tree : Node :=
  .elem "body" "" "" [] [
    .elem "p" "" "" [] [.text "First."],
    .elem "p" "" "" [] [.text "   "],
    .elem "p" "" "" [] [.text "Third."]]

/-- Witness for C6 on `c6Tree`: the first and third paragraphs receive ids
`p1` and `p2` (the empty second paragraph consumes no number), each with the
marker class and its own deep-link anchor prepended. -/
theorem paragraph_sequencing_witness :
    cleanN c6Tree = true
    ∧ anchoredInfoN (injectParagraphs c6Tree)
        = [("p", "p1", some (mkParagraphAnchor "p1")),
           ("p", "p2", some (mkParagraphAnchor "p2"))]
    ∧ injectParagraphs c6Tree
        = .elem "body" "" "" [] [
            .elem "p" "p1" "paragraph-with-anchor" [] [mkParagraphAnchor "p1", .text "First."],
            .elem "p" "" "" [] [.text "   "],
            .elem "p" "p2" "paragraph-with-anchor" [] [mkParagraphAnchor "p2", .text "Third."]] := by
  refine ⟨?_, paragraph_sequencing c6Tree (by rfl), ?_⟩ <;> rfl

/-! ## Claim C7 — last definition wins -/

theorem lookupMap_mapSet (m : List (String × Footnote)) (k : String) (v : Footnote)
    (k' : String) :
    lookupMap (mapSet m k v) k' = if k = k' then some v else lookupMap m k' := by
  induction m with
  | nil =>
    by_cases hk : k = k' <;> simp [mapSet, lookupMap, hk]
  | cons p rest ih =>
    obtain ⟨k0, v0⟩ := p
    by_cases h0 : k0 = k
    · subst h0
      rw [mapSet, if_pos rfl]
      by_cases hk : k0 = k' <;> simp [lookupMap, hk]
    · rw [mapSet, if_neg h0]
      by_cases hk : k0 = k'
      · subst hk
        have : ¬ k = k0 := fun hc => h0 hc.symm
        simp [lookupMap, this]
      · simp [lookupMap, hk, ih]

theorem getLast?_cons_of_ne_nil {α : Type} (x : α) {l : List α} (h : l ≠ []) :
    (x :: l).getLast? = l.getLast? := by
  cases l with
  | nil => exact absurd rfl h
  | cons y ys => exact List.getLast?_cons_cons

theorem lookupMapBuildLoop (render : String → String) (k : String) :
    ∀ (defs : List FDef) (m : List (String × Footnote)),
    lookupMap
        (defs.foldl
          (fun m d => mapSet m ("fn" ++ d.label) ⟨"fn" ++ d.label, render (jsTrim d.body)⟩) m)
        k
      = match (defs.filter (fun d => "fn" ++ d.label == k)).getLast? with
        | some d => some ⟨"fn" ++ d.label, render (jsTrim d.body)⟩
        | none => lookupMap m k := by
  intro defs
  induction defs with
  | nil => intro m; rfl
  | cons d rest ih =>
    intro m
    rw [List.foldl_cons, ih]
    cases hl : (rest.filter (fun d => "fn" ++ d.label == k)).getLast? with
    | some e =>
      have hne : rest.filter (fun d => "fn" ++ d.label == k) ≠ [] := by
        intro hc; rw [hc] at hl; simp at hl
      by_cases hd : ("fn" ++ d.label == k) = true
      · have hfc : (d :: rest).filter (fun d => "fn" ++ d.label == k)
            = d :: rest.filter (fun d => "fn" ++ d.label == k) := by
          rw [List.filter_cons, if_pos hd]
        rw [hfc, getLast?_cons_of_ne_nil _ hne, hl]
      · have hfc : (d :: rest).filter (fun d => "fn" ++ d.label == k)
            = rest.filter (fun d => "fn" ++ d.label == k) := by
          rw [List.filter_cons, if_neg hd]
        rw [hfc, hl]
    | none =>
      have hnil : rest.filter (fun d => "fn" ++ d.label == k) = [] := by
        cases hc : rest.filter (fun d => "fn" ++ d.label == k) with
        | nil => rfl
        | cons a l => rw [hc] at hl; simp at hl
      rw [lookupMap_mapSet]
      by_cases hd : ("fn" ++ d.label == k) = true
      · have hfc : (d :: rest).filter (fun d => "fn" ++ d.label == k)
            = d :: rest.filter (fun d => "fn" ++ d.label == k) := by
          rw [List.filter_cons, if_pos hd]
        rw [hfc, hnil]
        have heq : "fn" ++ d.label = k := by simpa using hd
        simp [heq]
      · have hfc : (d :: rest).filter (fun d => "fn" ++ d.label == k)
            = rest.filter (fun d => "fn" ++ d.label == k) := by
          rw [List.filter_cons, if_neg hd]
        rw [hfc, hnil]
        have hne2 : ¬ ("fn" ++ d.label = k) := by simpa using hd
        simp [hne2]

theorem fn_append_inj {a b : String} (h : "fn" ++ a = "fn" ++ b) : a = b := by
  have hd := congrArg String.data h
  simp only [String.data_append] at hd
  exact string_data_inj (List.append_cancel_left hd)

/-- Claim C7: for every source and every numeric label, the footnote table
built by the extractor maps `"fn" + label` to the rendered trimmed body of the
*last* definition block with that label in source order (later `Map.set`
calls overwrite earlier ones), and to nothing when no such block exists. -/
theorem footnote_last_definition_wins (render : String → String) (src l : String) :
    lookupMap (extract render src).footnotes ("fn" ++ l)
      = ((scanDefs src).filter (fun d => d.label == l)).getLast?.map
          (fun d => (⟨"fn" ++ d.label, render (jsTrim d.body)⟩ : Footnote)) := by
  show lookupMap (buildFootnoteMap render (scanDefs src)) ("fn" ++ l) = _
  rw [buildFootnoteMap, lookupMapBuildLoop]
  have hpred : ∀ d ∈ scanDefs src,
      ("fn" ++ d.label == "fn" ++ l) = (d.label == l) := by
    intro d _
    by_cases h : d.label = l
    · simp [h]
    · have hne : ¬ ("fn" ++ d.label = "fn" ++ l) := fun hc => h (fn_append_inj hc)
      simp [h, hne]
  rw [List.filter_congr hpred]
  cases hl : ((scanDefs src).filter (fun d => d.label == l)).getLast? with
  | some e => rfl
  | none => rfl

/-! ## Claim C8 — unmatched reference degrades silently -/

theorem replaceRefsAux_contains : ∀ (fuel : Nat) (l : List Char) (lab : String),
    lab ∈ (replaceRefsAux fuel l).2 →
    ∃ p q, (replaceRefsAux fuel l).1 = p ++ ("fn" ++ lab).data ++ q := by
  intro fuel
  induction fuel with
  | zero => intro l lab h; simp [replaceRefsAux] at h
  | succ f ih =>
    intro l lab h
    cases l with
    | nil => simp [replaceRefsAux] at h
    | cons c cs =>
      rw [replaceRefsAux] at h ⊢
      cases hm : tryMatchRef (c :: cs) with
      | some pr =>
        obtain ⟨n, rest⟩ := pr
        rw [hm] at h
        dsimp only at h ⊢
        simp only [List.mem_cons] at h
        rcases h with h1 | h1
        · subst h1
          exact ⟨[], (replaceRefsAux f rest).1, by simp⟩
        · obtain ⟨p, q, hpq⟩ := ih rest lab h1
          exact ⟨("fn" ++ n).data ++ p, q, by simp [hpq]⟩
      | none =>
        rw [hm] at h
        dsimp only at h ⊢
        obtain ⟨p, q, hpq⟩ := ih cs lab h
        exact ⟨c :: p, q, by simp [hpq]⟩

/-- Claim C8: a reference marker with label `l` and no definition block with
label `l` still (1) yields a reference-list entry `{placeholder, id, number}`
bound to `fn<l>`; (2) has its marker substituted, so the substituted source
contains the placeholder `fn<l>`; (3) produces no footnote-table entry; (4) is
still turned by the linker into the interactive reference span bound to
`fn<l>` wherever a text node splits in two on the placeholder; and (5) leaves
the activation handler inert: clicking such a reference element leaves the
active-footnote state unchanged, with no error. -/
theorem unmatched_reference_degrades (render : String → String) (src l : String)
    (href : l ∈ (replaceRefs src).2)
    (hdef : ∀ d ∈ scanDefs src, d.label ≠ l) :
    mkRef l ∈ (extract render src).refs
    ∧ (∃ p q, ((replaceRefs src).1).data = p ++ ("fn" ++ l).data ++ q)
    ∧ lookupMap (extract render src).footnotes ("fn" ++ l) = none
    ∧ (∀ s : String, (splitFull ("fn" ++ l).data s.data).length = 2 →
        mkFootnoteSpan ("fn" ++ l) l ∈ processText (mkRef l) s)
    ∧ (∀ (target : ClickTarget) (active : Option String),
        target.footnoteId = some ("fn" ++ l) →
        handleFootnoteClick (extract render src).footnotes target active = active) := by
  have hnone : lookupMap (extract render src).footnotes ("fn" ++ l) = none := by
    rw [footnote_last_definition_wins]
    have : (scanDefs src).filter (fun d => d.label == l) = [] := by
      rw [List.filter_eq_nil_iff]
      intro d hd
      simpa using hdef d hd
    rw [this]
    rfl
  refine ⟨?_, ?_, hnone, ?_, ?_⟩
  · show mkRef l ∈ ((replaceRefs src).2).map mkRef
    exact List.mem_map_of_mem mkRef href
  · exact replaceRefsAux_contains src.data.length src.data l href
  · intro s hs
    cases hp : splitFull ("fn" ++ l).data s.data with
    | nil => rw [hp] at hs; simp at hs
    | cons a tl =>
      cases tl with
      | nil => rw [hp] at hs; simp at hs
      | cons b tl2 =>
        cases tl2 with
        | nil =>
          show mkFootnoteSpan ("fn" ++ l) l ∈ processText (mkRef l) s
          rw [processText]
          have hph : (mkRef l).placeholder = "fn" ++ l := rfl
          rw [hph, hp]
          simp [mkRef]
        | cons c tl3 => rw [hp] at hs; simp at hs
  · intro target active htgt
    rw [handleFootnoteClick]
    by_cases hcl : target.classes.contains "footnote-ref" = true
    · rw [if_pos hcl, htgt]
      dsimp only
      rw [hnone]
      simp
    · rw [if_neg hcl]

/-- Witness for C8: the source `See[^7] end.` has a reference labelled 7 and
no definition blocks at all. -/
theorem unmatched_reference_degrades_witness :
    ("7" ∈ (replaceRefs "See[^7] end.").2)
    ∧ (∀ d ∈ scanDefs "See[^7] end.", d.label ≠ "7")
    ∧ (mkRef "7" ∈ (extract (fun s => s) "See[^7] end.").refs
      ∧ (∃ p q, ((replaceRefs "See[^7] end.").1).data = p ++ ("fn" ++ "7").data ++ q)
      ∧ lookupMap (extract (fun s => s) "See[^7] end.").footnotes ("fn" ++ "7") = none
      ∧ (∀ s : String, (splitFull ("fn" ++ "7").data s.data).length = 2 →
          mkFootnoteSpan ("fn" ++ "7") "7" ∈ processText (mkRef "7") s)
      ∧ (∀ (target : ClickTarget) (active : Option String),
          target.footnoteId = some ("fn" ++ "7") →
          handleFootnoteClick (extract (fun s => s) "See[^7] end.").footnotes target active
            = active)) :=
  ⟨by decide, by decide,
    unmatched_reference_degrades (fun s => s) "See[^7] end." "7" (by decide) (by decide)⟩

/-! ## Claim C10 — the closing label of a definition block is ignored -/

theorem parseDigits_append (ds : List Char) (c0 : Char) (r : List Char)
    (hds : ∀ c ∈ ds, c.isDigit = true) (hc0 : c0.isDigit = false) :
    parseDigits (ds ++ c0 :: r) = (ds, c0 :: r) := by
  induction ds with
  | nil => simp [parseDigits, hc0]
  | cons d tl ih =>
    rw [List.cons_append, parseDigits, if_pos (hds d (by simp)),
      ih (fun c hc => hds c (by simp [hc]))]

theorem spanNonBracket_append (b : List Char) (r : List Char)
    (hb : ∀ c ∈ b, ¬ c = '[') :
    spanNonBracket (b ++ '[' :: r) = (b, '[' :: r) := by
  induction b with
  | nil => simp [spanNonBracket]
  | cons x tl ih =>
    rw [List.cons_append, spanNonBracket,
      if_neg (by simpa using hb x (by simp)),
      ih (fun c hc => hb c (by simp [hc]))]

theorem tryMatchDef_block (A bdy B S : List Char)
    (hA : A ≠ []) (hAd : ∀ c ∈ A, c.isDigit = true)
    (hB : B ≠ []) (hBd : ∀ c ∈ B, c.isDigit = true)
    (hb : ∀ c ∈ bdy, ¬ c = '[') :
    tryMatchDef ('[' :: (A ++ ']' :: ':' :: (bdy ++ '[' :: '/' :: (B ++ ']' :: S))))
      = some (⟨⟨A⟩, ⟨bdy⟩, ⟨B⟩⟩, S) := by
  rw [tryMatchDef]
  rw [if_pos rfl]
  rw [show A ++ ']' :: ':' :: (bdy ++ '[' :: '/' :: (B ++ ']' :: S))
      = A ++ ']' :: (':' :: (bdy ++ '[' :: '/' :: (B ++ ']' :: S))) from rfl]
  rw [parseDigits_append A ']' _ hAd (by decide)]
  dsimp only
  rw [if_neg hA]
  rw [spanNonBracket_append bdy _ hb]
  dsimp only
  rw [if_pos (by decide), if_pos (by decide)]
  rw [parseDigits_append B ']' S hBd (by decide)]
  dsimp only
  rw [if_neg hB, if_pos rfl]

theorem tryMatchDef_not_bracket {c : Char} (hc : ¬ c = '[') (l : List Char) :
    tryMatchDef (c :: l) = none := by
  rw [tryMatchDef, if_neg hc]

theorem scanDefsAux_skip : ∀ (P : List Char), (∀ c ∈ P, ¬ c = '[') →
    ∀ (f : Nat) (m : List Char), scanDefsAux (P.length + f) (P ++ m) = scanDefsAux f m := by
  intro P
  induction P with
  | nil =>
    intro _ f m
    simp only [List.length_nil, Nat.zero_add, List.nil_append]
  | cons c tl ih =>
    intro h f m
    rw [show (c :: tl).length + f = (tl.length + f) + 1 from by rw [List.length_cons]; omega]
    rw [List.cons_append, scanDefsAux, tryMatchDef_not_bracket (h c (by simp))]
    exact ih (fun x hx => h x (by simp [hx])) f m

theorem scanDefsAux_no_bracket : ∀ (f : Nat) (S : List Char), (∀ c ∈ S, ¬ c = '[') →
    scanDefsAux f S = [] := by
  intro f
  induction f with
  | zero => intro S _; rfl
  | succ g ih =>
    intro S h
    cases S with
    | nil => rfl
    | cons c cs =>
      rw [scanDefsAux, tryMatchDef_not_bracket (h c (by simp))]
      exact ih cs (fun x hx => h x (by simp [hx]))

theorem removeDefsAux_skip : ∀ (P : List Char), (∀ c ∈ P, ¬ c = '[') →
    ∀ (f : Nat) (m : List Char), removeDefsAux (P.length + f) (P ++ m) = P ++ removeDefsAux f m := by
  intro P
  induction P with
  | nil =>
    intro _ f m
    simp only [List.length_nil, Nat.zero_add, List.nil_append]
  | cons c tl ih =>
    intro h f m
    rw [show (c :: tl).length + f = (tl.length + f) + 1 from by rw [List.length_cons]; omega]
    rw [List.cons_append, removeDefsAux, tryMatchDef_not_bracket (h c (by simp))]
    rw [ih (fun x hx => h x (by simp [hx])) f m]
    rfl

theorem removeDefsAux_no_bracket : ∀ (f : Nat) (S : List Char), (∀ c ∈ S, ¬ c = '[') →
    removeDefsAux f S = S := by
  intro f
  induction f with
  | zero => intro S _; rfl
  | succ g ih =>
    intro S h
    cases S with
    | nil => rfl
    | cons c cs =>
      rw [removeDefsAux, tryMatchDef_not_bracket (h c (by simp))]
      rw [ih cs (fun x hx => h x (by simp [hx]))]

/-- Claim C10: a definition block `[A]: body [/B]` does not require the
closing label `B` to equal the opening label `A`.  Embedded in any source
whose surrounding text contains no `[`, the block is scanned as one match
with captures `A`, `body`, `B`; the extractor keys the footnote by
`"fn" + A` (ignoring `B` entirely); and removal deletes the whole block. -/
theorem def_block_close_label_ignored (render : String → String) (A B bdy P S : String)
    (hA : A.data ≠ []) (hAd : ∀ c ∈ A.data, c.isDigit = true)
    (hB : B.data ≠ []) (hBd : ∀ c ∈ B.data, c.isDigit = true)
    (hb : ∀ c ∈ bdy.data, ¬ c = '[')
    (hP : ∀ c ∈ P.data, ¬ c = '[') (hS : ∀ c ∈ S.data, ¬ c = '[') :
    scanDefs (P ++ "[" ++ A ++ "]:" ++ bdy ++ "[/" ++ B ++ "]" ++ S) = [⟨A, bdy, B⟩]
    ∧ lookupMap
        (extract render (P ++ "[" ++ A ++ "]:" ++ bdy ++ "[/" ++ B ++ "]" ++ S)).footnotes
        ("fn" ++ A) = some ⟨"fn" ++ A, render (jsTrim bdy)⟩
    ∧ removeDefs (P ++ "[" ++ A ++ "]:" ++ bdy ++ "[/" ++ B ++ "]" ++ S) = P ++ S := by
  have hdata : (P ++ "[" ++ A ++ "]:" ++ bdy ++ "[/" ++ B ++ "]" ++ S).data
      = P.data ++ '[' ::
          (A.data ++ ']' :: ':' :: (bdy.data ++ '[' :: '/' :: (B.data ++ ']' :: S.data))) := by
    simp [String.data_append]
  have hlen : (P.data ++ '[' ::
        (A.data ++ ']' :: ':' :: (bdy.data ++ '[' :: '/' :: (B.data ++ ']' :: S.data)))).length
      = P.data.length +
        ((A.data ++ ']' :: ':' :: (bdy.data ++ '[' :: '/' :: (B.data ++ ']' :: S.data))).length
          + 1) := by
    simp
  have hscan : scanDefs (P ++ "[" ++ A ++ "]:" ++ bdy ++ "[/" ++ B ++ "]" ++ S)
      = [⟨A, bdy, B⟩] := by
    rw [scanDefs, hdata, hlen, scanDefsAux_skip P.data hP, scanDefsAux,
      tryMatchDef_block A.data bdy.data B.data S.data hA hAd hB hBd hb]
    dsimp only
    rw [scanDefsAux_no_bracket _ _ hS]
  refine ⟨hscan, ?_, ?_⟩
  · show lookupMap
        (buildFootnoteMap render (scanDefs (P ++ "[" ++ A ++ "]:" ++ bdy ++ "[/" ++ B ++ "]" ++ S)))
        ("fn" ++ A) = _
    rw [hscan]
    simp [buildFootnoteMap, mapSet, lookupMap]
  · rw [removeDefs, hdata, hlen, removeDefsAux_skip P.data hP, removeDefsAux,
      tryMatchDef_block A.data bdy.data B.data S.data hA hAd hB hBd hb]
    dsimp only
    rw [removeDefsAux_no_bracket _ _ hS]
    apply string_data_inj
    simp [String.data_append]

/-- Witness for C10 at the block `[1]: body [/2]` embedded between `x ` and
` y`: the opening label is 1, the closing label is 2, and the extractor
records the definition under `fn1`. -/
theorem def_block_close_label_ignored_witness :
    (("1" : String).data ≠ [] ∧ (∀ c ∈ ("1" : String).data, c.isDigit = true)
      ∧ ("2" : String).data ≠ [] ∧ (∀ c ∈ ("2" : String).data, c.isDigit = true)
      ∧ (∀ c ∈ (" body " : String).data, ¬ c = '[')
      ∧ (∀ c ∈ ("x " : String).data, ¬ c = '[') ∧ (∀ c ∈ (" y" : String).data, ¬ c = '['))
    ∧ (scanDefs ("x " ++ "[" ++ "1" ++ "]:" ++ " body " ++ "[/" ++ "2" ++ "]" ++ " y")
          = [⟨"1", " body ", "2"⟩]
      ∧ lookupMap
          (extract (fun s => s)
            ("x " ++ "[" ++ "1" ++ "]:" ++ " body " ++ "[/" ++ "2" ++ "]" ++ " y")).footnotes
          ("fn" ++ "1") = some ⟨"fn" ++ "1", (fun s => s) (jsTrim " body ")⟩
      ∧ removeDefs ("x " ++ "[" ++ "1" ++ "]:" ++ " body " ++ "[/" ++ "2" ++ "]" ++ " y")
          = "x " ++ " y") :=
  ⟨⟨by decide, by decide, by decide, by decide, by decide, by decide, by decide⟩,
    def_block_close_label_ignored (fun s => s) "1" "2" " body " "x " " y"
      (by decide) (by decide) (by decide) (by decide) (by decide) (by decide) (by decide)⟩

/-! ## Claims C2 and C9 — heading id uniqueness and determinism -/

/-- The final id of the occurrence with run-count `k` of candidate `c`: the
bare candidate for the first occurrence, the `-k`-suffixed candidate for the
`k`-th (`k ≥ 2`). -/
def occId (c : String) (k : Nat) : String :=
  if k = 1 then c else c ++ "-" ++ natToString k

theorem idCountsStep_fst (counts : String → Nat) (cand : String) :
    (idCountsStep counts cand).1 = occId cand (counts cand + 1) := by
  rw [idCountsStep, occId]
  by_cases h : counts cand ≠ 0
  · rw [if_pos h, if_neg (by omega)]
  · have h0 : counts cand = 0 := by omega
    rw [if_neg h, if_pos (by omega)]

theorem idCountsStep_snd_self (counts : String → Nat) (cand : String) :
    (idCountsStep counts cand).2 cand = counts cand + 1 := by
  rw [idCountsStep]
  by_cases h : counts cand ≠ 0
  · rw [if_pos h]
    dsimp only
    rw [if_pos rfl]
  · have h0 : counts cand = 0 := by omega
    rw [if_neg h]
    dsimp only
    rw [if_pos rfl, h0]

theorem idCountsStep_snd_other (counts : String → Nat) (cand c : String) (h : ¬ c = cand) :
    (idCountsStep counts cand).2 c = counts c := by
  rw [idCountsStep]
  by_cases hz : counts cand ≠ 0
  · rw [if_pos hz]
    dsimp only
    rw [if_neg h]
  · rw [if_neg hz]
    dsimp only
    rw [if_neg h]

theorem occId_inj (c : String) (x y : Nat) (_hx : 1 ≤ x) (_hy : 1 ≤ y)
    (h : occId c x = occId c y) : x = y := by
  rw [occId, occId] at h
  by_cases h1 : x = 1 <;> by_cases h2 : y = 1
  · omega
  · rw [if_pos h1, if_neg h2] at h
    exfalso
    have hlen := congrArg (fun s => s.data.length) h
    simp [String.data_append] at hlen
  · rw [if_neg h1, if_pos h2] at h
    exfalso
    have hlen := congrArg (fun s => s.data.length) h
    simp [String.data_append] at hlen
  · rw [if_neg h1, if_neg h2] at h
    have hd := congrArg String.data h
    simp only [String.data_append, List.append_assoc] at hd
    have h3 := List.append_cancel_left hd
    simp only [List.cons_append, List.nil_append, List.cons.injEq, true_and] at h3
    exact natToString_inj x y (string_data_inj h3)

theorem indexListAux_filter_cand (c : String) :
    ∀ (hs : List HeadingInfo) (counts : String → Nat),
    ((((indexListAux counts hs).1.map CTNode.id).zip
        (hs.map (fun h => headingCandidate h.preId h.text))).filter
      (fun pr => pr.2 == c)).map Prod.fst
    = (List.range' (counts c + 1)
        (hs.countP (fun h => headingCandidate h.preId h.text == c))).map (occId c) := by
  intro hs
  induction hs with
  | nil => intro counts; rfl
  | cons h rest ih =>
    intro counts
    rw [indexListAux]
    dsimp only
    rw [List.map_cons, List.map_cons, List.zip_cons_cons, List.filter_cons, List.countP_cons]
    dsimp only
    by_cases hc : (headingCandidate h.preId h.text == c) = true
    · have hceq : headingCandidate h.preId h.text = c := by simpa using hc
      rw [if_pos hc, List.map_cons, ih, idCountsStep_fst, hceq, idCountsStep_snd_self]
      rw [show (if (c == c) = true then 1 else 0) = 1 from by simp]
      rw [List.range'_succ, List.map_cons]
    · have hcne : ¬ (c = headingCandidate h.preId h.text) := by
        intro hcc
        exact hc (by simp [hcc])
      rw [if_neg hc, ih, idCountsStep_snd_other counts _ c hcne]
      simp [hc]

theorem indexListAux_append : ∀ (l1 l2 : List HeadingInfo) (counts : String → Nat),
    indexListAux counts (l1 ++ l2)
      = ((indexListAux counts l1).1 ++ (indexListAux (indexListAux counts l1).2 l2).1,
         (indexListAux (indexListAux counts l1).2 l2).2) := by
  intro l1
  induction l1 with
  | nil => intro l2 counts; rfl
  | cons h tl ih =>
    intro l2 counts
    rw [List.cons_append, indexListAux, indexListAux]
    dsimp only
    rw [ih, List.cons_append]

mutual

theorem indexTreeN_bridge : ∀ (counts : String → Nat) (n : Node),
    (indexTreeN counts n).2.1 = (indexListAux counts (collectHeadingsN n)).1
    ∧ (indexTreeN counts n).2.2 = (indexListAux counts (collectHeadingsN n)).2
  | counts, .text s => by simp [indexTreeN, collectHeadingsN, indexListAux]
  | counts, .elem tag eid cls attrs cs => by
    cases hl : headingLevel? tag with
    | some lvl =>
      have ihl := indexTreeL_bridge
        ((idCountsStep counts (headingCandidate eid (jsTrim (textContentL cs)))).2) cs
      rw [indexTreeN, collectHeadingsN, hl]
      dsimp only
      rw [indexListAux]
      dsimp only
      exact ⟨by rw [ihl.1], by rw [ihl.2]⟩
    | none =>
      have ihl := indexTreeL_bridge counts cs
      rw [indexTreeN, collectHeadingsN, hl]
      dsimp only
      exact ihl

theorem indexTreeL_bridge : ∀ (counts : String → Nat) (l : List Node),
    (indexTreeL counts l).2.1 = (indexListAux counts (collectHeadingsL l)).1
    ∧ (indexTreeL counts l).2.2 = (indexListAux counts (collectHeadingsL l)).2
  | counts, [] => by simp [indexTreeL, collectHeadingsL, indexListAux]
  | counts, n :: l => by
    have ihn := indexTreeN_bridge counts n
    rw [indexTreeL, collectHeadingsL]
    dsimp only
    rw [indexListAux_append]
    constructor
    · rw [ihn.1, ihn.2, (indexTreeL_bridge (indexListAux counts (collectHeadingsN n)).2 l).1]
    · rw [ihn.2, (indexTreeL_bridge (indexListAux counts (collectHeadingsN n)).2 l).2]

end

/-- Claim C2 (amended): within one run of the Heading Indexer, the ids
assigned to headings that share the same un-suffixed candidate id are pairwise
distinct (the first occurrence keeps the candidate, the `k`-th gets the
`-k` suffix, and the decimal suffixes are injective).  Ids of headings with
*different* candidates can still collide — see the counterexample. -/
theorem heading_ids_same_candidate_nodup (body : Node) (c : String) :
    (((((indexTree body).2).map CTNode.id).zip
        ((collectHeadingsN body).map (fun h => headingCandidate h.preId h.text))).filter
      (fun pr => pr.2 == c)).map Prod.fst |>.Nodup := by
  rw [show (indexTree body).2 = (indexTreeN (fun _ => 0) body).2.1 from rfl,
    (indexTreeN_bridge (fun _ => 0) body).1]
  rw [indexListAux_filter_cand]
  apply List.Nodup.map_on
  · intro x hx y hy hxy
    have hx1 := (List.mem_range'_1.mp hx).1
    have hy1 := (List.mem_range'_1.mp hy).1
    exact occId_inj c x y (by omega) (by omega) hxy
  · exact List.nodup_range' _ _

/-- Headings `A`, `A`, `A 2` — their candidate slugs are `a`, `a`, `a-2`. -/
def c2Tree : Node :=
  .elem "body" "" "" [] [
    .elem "h1" "" "" [] [.text "A"],
    .elem "h2" "" "" [] [.text "A"],
    .elem "h2" "" "" [] [.text "A 2"]]

/-- Claim C2 (counterexample): on the document with headings `A`, `A`, `A 2`
the Heading Indexer returns the ids `a`, `a-2`, `a-2` — the suffixed id of
the second `A` collides with the derived candidate of `A 2`, so the ids in
the content tree are *not* pairwise distinct. -/
theorem heading_ids_collision_counterexample :
    ((indexTree c2Tree).2).map CTNode.id = ["a", "a-2", "a-2"]
    ∧ ¬ (((indexTree c2Tree).2).map CTNode.id).Nodup := by
  refine ⟨by rfl, by decide⟩

/-- Claim C9: the Heading Indexer is deterministic across runs — each run
creates its `idCounts` table fresh, so two runs on structurally identical
bodies yield identical content trees, and in particular identical ids in
identical order. -/
theorem heading_indexer_idempotent (b1 b2 : Node) (h : b1 = b2) :
    ((indexTree b1).2).map CTNode.id = ((indexTree b2).2).map CTNode.id
    ∧ (indexTree b1).2 = (indexTree b2).2 := by
  subst h
  exact ⟨rfl, rfl⟩

/-- A small document with colliding heading texts, for the C9 witness. -/
def c9Tree : Node :=
  .elem "body" "" "" [] [
    .elem "h1" "" "" [] [.text "Intro"],
    .elem "h2" "" "" [] [.text "Intro"]]

/-- Witness for C9: two fresh runs on `c9Tree` agree, and both produce the
collision-ordered ids `intro`, `intro-2`. -/
theorem heading_indexer_idempotent_witness :
    (((indexTree c9Tree).2).map CTNode.id = ((indexTree c9Tree).2).map CTNode.id
      ∧ (indexTree c9Tree).2 = (indexTree c9Tree).2)
    ∧ ((indexTree c9Tree).2).map CTNode.id = ["intro", "intro-2"] :=
  ⟨heading_indexer_idempotent c9Tree c9Tree rfl, by rfl⟩

end DeliveranceStar
